import Mathlib

/-!
Shallow embedding of the rustdoc search-index decoding core of this
repository (src/vlq.rs, src/search_index.rs, src/search_items.rs), with
theorems checking the specification's claims about it.

Conventions used throughout:
* Rust strings that the source manipulates byte-wise (`as_bytes()`) are
  modeled as `List Nat` of byte values; strings carried around verbatim
  stay Lean `String` (or `List Char` for the wrapper extractor, which
  slices at positions found by substring search).
* Machine integers are `Nat`/`Int` with an explicit `% 2 ^ w` where the
  source wraps (release-mode two's-complement semantics).
* Fallible code is modeled with `Option`/`Except`; a Rust panic is a
  failure value, never an unchecked Lean error.
-/

namespace Rdoc

/-- Item type ID from the rustdoc search index
(src/search_index.rs, `enum ItemType`, discriminants 0..27). -/
inductive ItemType where
  | MutRef
  | PrimitiveOrBuiltin
  | Module
  | ExternCrate
  | Import
  | Struct
  | Enum
  | Function
  | Typedef
  | Static
  | Trait
  | Impl
  | TyMethod
  | Method
  | StructField
  | Variant
  | Macro
  | Primitive
  | AssocConst
  | AssocType
  | Constant
  | Union
  | ForeignType
  | Keyword
  | OpaqueTy
  | ProcAttribute
  | ProcDerive
  | TraitAlias
  deriving DecidableEq

/-- Decode a type ID to ItemType (src/search_items.rs, `decode_item_type`):
a total match with `ItemType::Module` as the fallback arm. -/
def decode_item_type (type_id : Nat) : ItemType :=
  match type_id with
  | 0 => ItemType.MutRef
  | 1 => ItemType.PrimitiveOrBuiltin
  | 2 => ItemType.Module
  | 3 => ItemType.ExternCrate
  | 4 => ItemType.Import
  | 5 => ItemType.Struct
  | 6 => ItemType.Enum
  | 7 => ItemType.Function
  | 8 => ItemType.Typedef
  | 9 => ItemType.Static
  | 10 => ItemType.Trait
  | 11 => ItemType.Impl
  | 12 => ItemType.TyMethod
  | 13 => ItemType.Method
  | 14 => ItemType.StructField
  | 15 => ItemType.Variant
  | 16 => ItemType.Macro
  | 17 => ItemType.Primitive
  | 18 => ItemType.AssocConst
  | 19 => ItemType.AssocType
  | 20 => ItemType.Constant
  | 21 => ItemType.Union
  | 22 => ItemType.ForeignType
  | 23 => ItemType.Keyword
  | 24 => ItemType.OpaqueTy
  | 25 => ItemType.ProcAttribute
  | 26 => ItemType.ProcDerive
  | 27 => ItemType.TraitAlias
  | _ => ItemType.Module

/-- The numeric discriminant of each `ItemType` variant, as declared by
`#[repr(u32)]` in src/search_index.rs (the inverse of the in-range arms of
`decode_item_type`). -/
def itemTypeCode : ItemType → Nat
  | ItemType.MutRef => 0
  | ItemType.PrimitiveOrBuiltin => 1
  | ItemType.Module => 2
  | ItemType.ExternCrate => 3
  | ItemType.Import => 4
  | ItemType.Struct => 5
  | ItemType.Enum => 6
  | ItemType.Function => 7
  | ItemType.Typedef => 8
  | ItemType.Static => 9
  | ItemType.Trait => 10
  | ItemType.Impl => 11
  | ItemType.TyMethod => 12
  | ItemType.Method => 13
  | ItemType.StructField => 14
  | ItemType.Variant => 15
  | ItemType.Macro => 16
  | ItemType.Primitive => 17
  | ItemType.AssocConst => 18
  | ItemType.AssocType => 19
  | ItemType.Constant => 20
  | ItemType.Union => 21
  | ItemType.ForeignType => 22
  | ItemType.Keyword => 23
  | ItemType.OpaqueTy => 24
  | ItemType.ProcAttribute => 25
  | ItemType.ProcDerive => 26
  | ItemType.TraitAlias => 27

/-- Wrapping `u8` subtraction `type_char - b'A'`
(src/search_items.rs line 83); for a byte in `[65, 256)` this is the plain
difference, below 65 it wraps modulo 256. -/
def subByteA (type_char : Nat) : Nat :=
  (type_char % 256 + 256 - 65) % 256

/-- One accumulation step of the VLQ decoder,
`n = (n << 4) | (current & 15)` on a `u32` accumulator
(src/vlq.rs lines 28 and 39). -/
def vlqFold (n current : Nat) : Nat :=
  ((n <<< 4) % 4294967296) ||| (current &&& 15)

/-- The byte-consuming body of `VlqHexDecoder::next` after the initial
bounds check (src/vlq.rs lines 22-41): starting from accumulator `n`, fold
consecutive continuation bytes (code < 96), then fold exactly one terminal
byte (code ≥ 96) when one is present before the end of the string.
Returns the assembled accumulator and the number of bytes consumed. -/
def vlqAssemble : List Nat → Nat → Nat × Nat
  | [], n => (n, 0)
  | c :: rest, n =>
    if c < 96 then
      let r := vlqAssemble rest (vlqFold n c)
      (r.1, r.2 + 1)
    else
      (vlqFold n c, 1)

/-- Sign/magnitude interpretation of the assembled accumulator
(src/vlq.rs lines 43-47): bit 0 is the sign flag, the rest (shifted right
by one) the magnitude. -/
def vlqValue (n : Nat) : Int :=
  if n &&& 1 = 1 then -((n >>> 1 : Nat) : Int) else ((n >>> 1 : Nat) : Int)

/-- `VlqHexDecoder::next` (src/vlq.rs lines 15-48). The decoder state is
the byte string together with the cursor `offset`; the call returns the
decoded signed value (`none` exactly at end of stream) and the new cursor
position. -/
def vlqNext (string : List Nat) (offset : Nat) : Option Int × Nat :=
  if string.length ≤ offset then (none, offset)
  else
    let r := vlqAssemble (string.drop offset) 0
    (some (vlqValue r.1), offset + r.2)

/-- Repeatedly call `vlqNext`, collecting the decoded values, with explicit
fuel (each successful call consumes at least one byte, so `string.length`
fuel is always enough; see `vlqReadAll_eq_of_fuel`). -/
def vlqReadAll : Nat → List Nat → Nat → List Int
  | 0, _, _ => []
  | fuel + 1, string, offset =>
    match vlqNext string offset with
    | (none, _) => []
    | (some v, offset2) => v :: vlqReadAll fuel string offset2

/-- Decode every value of a VLQ byte string from the start. -/
def vlqDecodeAll (string : List Nat) : List Int :=
  vlqReadAll string.length string 0

/-- Qualified path entry (src/search_index.rs, `QualifiedPath`): maps an
item index to its module path. -/
structure QualifiedPath where
  index : Nat
  path : String
  deriving DecidableEq

/-- Parent item descriptor (src/search_index.rs, `PathItem`). -/
structure PathItem where
  ty : ItemType
  name : String
  path_index : Option Nat
  exact_path_index : Option Nat
  unbox_flag : Option Nat
  deriving DecidableEq

/-- Re-export entry (src/search_index.rs, `Reexport`). -/
structure Reexport where
  item_index : Nat
  path_index : Nat
  deriving DecidableEq

/-- Parameter types of a function or method
(src/search_index.rs, `ParamTypes`). -/
structure ParamTypes where
  item_index : Nat
  types : List String
  deriving DecidableEq

/-- Implementation disambiguator
(src/search_index.rs, `ImplDisambiguator`). -/
structure ImplDisambiguator where
  item_index : Nat
  disambiguator : String
  deriving DecidableEq

/-- Compact crate data (src/search_index.rs, `CrateData`). The `types`
string and the VLQ/bitmap strings `i`, `f`, `desc`, `c`, `e` are consumed
byte-wise by the decoder, so they are modeled as lists of byte values;
`aliases` is an association list standing for the optional `HashMap`. -/
structure CrateData where
  types : List Nat
  names : List String
  paths : List QualifiedPath
  parent_items : List PathItem
  reexports : List Reexport
  i : List Nat
  f : List Nat
  desc : List Nat
  param_types : List ParamTypes
  impl_disambiguators : List ImplDisambiguator
  c : List Nat
  e : List Nat
  aliases : Option (List (String × List Nat))
  deriving DecidableEq

/-- A fully decoded search index item (src/search_items.rs, `SearchItem`). -/
structure SearchItem where
  crate_name : String
  item_type : ItemType
  name : String
  normalized_name : String
  path : String
  exact_path : String
  id : Nat
  param_types : List String
  impl_disambiguator : Option String
  bit_index : Nat
  parent_index : Option Nat
  deriving DecidableEq

/-- Lookup in the `paths_map` built in `decode_crate`
(src/search_items.rs lines 50-54): collecting into a `HashMap` keeps the
last entry inserted for a key, hence the search over the reversed list. -/
def pathsLookup (paths : List QualifiedPath) (k : Nat) : Option String :=
  (paths.reverse.find? (fun qp => qp.index == k)).map (fun qp => qp.path)

/-- Lookup in the `reexports_map` of `decode_crate`
(src/search_items.rs lines 59-63). -/
def reexportsLookup (reexports : List Reexport) (k : Nat) : Option Nat :=
  (reexports.reverse.find? (fun r => r.item_index == k)).map
    (fun r => r.path_index)

/-- Lookup in the `param_types_map` of `decode_crate`
(src/search_items.rs lines 65-69). -/
def paramTypesLookup (pts : List ParamTypes) (k : Nat) : Option (List String) :=
  (pts.reverse.find? (fun pt => pt.item_index == k)).map (fun pt => pt.types)

/-- Lookup in the `impl_disamb_map` of `decode_crate`
(src/search_items.rs lines 71-75). -/
def implDisambLookup (ids : List ImplDisambiguator) (k : Nat) : Option String :=
  (ids.reverse.find? (fun d => d.item_index == k)).map
    (fun d => d.disambiguator)

/-- The underscore character. -/
def underscoreChar : Char := Char.ofNat 95

/-- `name.to_lowercase().replace(underscore, "")`
(src/search_items.rs line 94), lower-casing modeled per character. -/
def normalizeName (name : String) : String :=
  String.mk ((name.data.map Char.toLower).filter (fun ch => ch ≠ underscoreChar))

/-- Name resolution at one position (src/search_items.rs lines 87-91): an
empty raw name reuses the previously resolved name. -/
def resolveName (raw last_name : String) : String :=
  if raw = "" then last_name else raw

/-- Path resolution at one position (src/search_items.rs lines 97-100):
a position absent from the path overlay reuses the previous resolved path. -/
def resolvePath (paths : List QualifiedPath) (i : Nat) (last_path : String) :
    String :=
  match pathsLookup paths i with
  | some p => p
  | none => last_path

/-- Exact-path resolution at one position
(src/search_items.rs lines 102-110): follow the re-export entry's path
index through the path overlay, falling back to the already-resolved path;
without a re-export entry the exact path is the resolved path. -/
def resolveExactPath (reexports : List Reexport) (paths : List QualifiedPath)
    (i : Nat) (path : String) : String :=
  match reexportsLookup reexports i with
  | some path_index =>
    match pathsLookup paths path_index with
    | some p => p
    | none => path
  | none => path

/-- Parent-reference resolution from one decoded VLQ step
(src/search_items.rs lines 121-128): `parent_decoder.next().and_then(...)`,
a positive value `v` meaning parent `v - 1`, anything else no parent. -/
def resolveParent (decoded : Option Int) : Option Nat :=
  decoded.bind (fun parent_idx =>
    if parent_idx > 0 then some (parent_idx - 1).toNat else none)

/-- The `SearchItem` record pushed at position `i` of the `decode_crate`
loop (src/search_items.rs lines 79-142), computed from the crate data and
the loop state at that position (`raw_name` is `crate_data.names[i]`). -/
def mkItem (crate_name : String) (crate_data : CrateData) (i : Nat)
    (type_char : Nat) (raw_name last_name last_path : String) (voff : Nat) :
    SearchItem :=
  let name := resolveName raw_name last_name
  let path := resolvePath crate_data.paths i last_path
  { crate_name := crate_name
    item_type := decode_item_type (subByteA type_char)
    name := name
    normalized_name := normalizeName name
    path := path
    exact_path := resolveExactPath crate_data.reexports crate_data.paths i path
    id := i
    param_types := (paramTypesLookup crate_data.param_types i).getD []
    impl_disambiguator := implDisambLookup crate_data.impl_disambiguators i
    bit_index := i + 1
    parent_index := resolveParent (vlqNext crate_data.i voff).1 }

/-- The body of the `for i in 0..crate_data.types.len()` loop of
`decode_crate` (src/search_items.rs lines 78-147), recursing over the
suffix `ts` of the `types` byte string starting at position `i` and
threading the loop state (`last_name`, `last_path`, and the cursor `voff`
of the parent-index VLQ decoder). The `none` result models the
`crate_data.names[i]` index panic that fires when `names` is shorter than
`types`. -/
def decodeItems (crate_name : String) (crate_data : CrateData) :
    Nat → List Nat → String → String → Nat → Option (List SearchItem)
  | _, [], _, _, _ => some []
  | i, type_char :: ts, last_name, last_path, voff =>
    match crate_data.names[i]? with
    | none => none
    | some raw_name =>
      (decodeItems crate_name crate_data (i + 1) ts
          (resolveName raw_name last_name)
          (resolvePath crate_data.paths i last_path)
          ((vlqNext crate_data.i voff).2)).map
        (fun rest =>
          mkItem crate_name crate_data i type_char raw_name last_name
            last_path voff :: rest)

/-- `decode_crate` (src/search_items.rs lines 44-150): decode a crate's
compact data into the list of search items, `none` modeling the panic on a
`names` array shorter than the `types` string. -/
def decode_crate (crate_name : String) (crate_data : CrateData) :
    Option (List SearchItem) :=
  decodeItems crate_name crate_data 0 crate_data.types "" "" 0

/-- A Rust panic (process abort) carrying its message: the failure mode of
`.expect(...)` in src/search_index.rs. -/
inductive RustPanic where
  | panic (msg : String)
  deriving DecidableEq

/-- The single-quote character (ASCII 39). -/
def quoteChar : Char := Char.ofNat 39

/-- The backslash character (ASCII 92). -/
def backslashChar : Char := Char.ofNat 92

/-- The opening delimiter pattern of the packed literal,
`JSON.parse(` followed by a quote (src/search_index.rs line 229). -/
def start_pattern : List Char := "JSON.parse(".data ++ [quoteChar]

/-- The closing delimiter pattern, a quote followed by `)`
(src/search_index.rs line 230). -/
def end_pattern : List Char := [quoteChar] ++ ")".data

/-- The message of the panic fired when the opening delimiter is missing
(src/search_index.rs line 234). -/
def startPanicMsg : String :=
  String.mk ("Could not find JSON.parse(".data ++ [quoteChar])

/-- The message of the panic fired when the closing delimiter is missing
(src/search_index.rs line 239). -/
def endPanicMsg : String :=
  String.mk ("Could not find closing ".data ++ [quoteChar] ++ ")".data)

/-- `str::find(pattern)` on character lists: position of the first
occurrence of `pat` in `hay`, if any. -/
def findSub : List Char → List Char → Option Nat
  | [], pat => if pat.isEmpty then some 0 else none
  | c :: t, pat =>
    if pat.isPrefixOf (c :: t) then some 0 else (findSub t pat).map (· + 1)

/-- `str::replace` of the two-character backslash-quote sequence by a
single quote (src/search_index.rs line 245), scanning left to right. -/
def unescapeQuotes : List Char → List Char
  | [] => []
  | [c] => [c]
  | a :: b :: rest =>
    if a = backslashChar ∧ b = quoteChar then
      quoteChar :: unescapeQuotes rest
    else
      a :: unescapeQuotes (b :: rest)

/-- `extract_json_string` (src/search_index.rs lines 227-246): take the
text between the `JSON.parse('` delimiter and the following `')` and
unescape the escaped quotes. The error branches model the two
`.expect(...)` panics of the source verbatim. -/
def extract_json_string (content : List Char) : Except RustPanic (List Char) :=
  match findSub content start_pattern with
  | none => Except.error (RustPanic.panic startPanicMsg)
  | some s0 =>
    let start := s0 + start_pattern.length
    match findSub (content.drop start) end_pattern with
    | none => Except.error (RustPanic.panic endPanicMsg)
    | some e0 =>
      let json_str := (content.drop start).take e0
      Except.ok (unescapeQuotes json_str)

/-- The reuse-previous-value fold that `decode_crate` threads through its
loop for names, written as a standalone list function: each raw name is
resolved by `resolveName` against the previous resolved name, starting
from `last_name`. -/
def resolveNames : List String → String → List String
  | [], _ => []
  | raw :: raws, last_name =>
    let n := resolveName raw last_name
    n :: resolveNames raws n

/-- A crate payload with every field empty, for building concrete tests. -/
def emptyCrateData : CrateData :=
  { types := [], names := [], paths := [], parent_items := [],
    reexports := [], i := [], f := [], desc := [], param_types := [],
    impl_disambiguators := [], c := [], e := [], aliases := none }

/-- Three items `"ABC"` with parent-index stream `"abd"` (bytes
`[97, 98, 100]`, decoding to `[0, 1, 2]`), as in the source test
`test_decode_parent_info`. -/
def exampleParentData : CrateData :=
  { emptyCrateData with
    types := [65, 66, 67]
    names := ["top", "child1", "child2"]
    i := [97, 98, 100] }

/-- Three items `"CFK"` with a path overlay and one re-export, as in the
source test `test_decode_comprehensive`: item 1 is re-exported at the
path of overlay index 0. -/
def exampleReexportData : CrateData :=
  { emptyCrateData with
    types := [67, 70, 75]
    names := ["foo", "Bar", "Baz_Trait"]
    paths := [{ index := 0, path := "mylib" },
              { index := 1, path := "mylib::structs" }]
    reexports := [{ item_index := 1, path_index := 0 }] }

/-- Four items whose raw names exercise the reuse-previous-name
compression, as in the source test `test_decode_name_with_compression`. -/
def exampleNamesData : CrateData :=
  { emptyCrateData with
    types := [65, 66, 67, 68]
    names := ["foo", "", "bar", ""] }

/-- One item whose raw name is empty at position 0 (no prior name). -/
def exampleEmptyFirstData : CrateData :=
  { emptyCrateData with types := [65], names := [""] }

/-- A length-mismatched payload: `names` one longer than `types`. -/
def exampleNamesLonger : CrateData :=
  { emptyCrateData with types := [65], names := ["foo", "bar"] }

/-- A length-mismatched payload: `names` one shorter than `types`. -/
def exampleNamesShorter : CrateData :=
  { emptyCrateData with types := [65, 66], names := ["foo"] }

/-! ## Helper lemmas -/

theorem vlqAssemble_consumed_le (l : List Nat) : ∀ n : Nat,
    (vlqAssemble l n).2 ≤ l.length := by
  induction l with
  | nil => intro n; simp [vlqAssemble]
  | cons c rest ih =>
    intro n
    by_cases h : c < 96
    · simp only [vlqAssemble, if_pos h, List.length_cons]
      exact Nat.add_le_add_right (ih (vlqFold n c)) 1
    · simp only [vlqAssemble, if_neg h, List.length_cons]
      omega

theorem vlqAssemble_consumed_pos (l : List Nat) (n : Nat) (hl : l ≠ []) :
    1 ≤ (vlqAssemble l n).2 := by
  match l with
  | c :: rest => by_cases h : c < 96 <;> simp [vlqAssemble, h]

theorem vlqAssemble_split (conts : List Nat) (t : Nat) (rest : List Nat)
    (hc : ∀ c ∈ conts, c < 96) (ht : 96 ≤ t) : ∀ n : Nat,
    vlqAssemble (conts ++ t :: rest) n =
      (List.foldl vlqFold n (conts ++ [t]), conts.length + 1) := by
  induction conts with
  | nil =>
    intro n
    have h : ¬ t < 96 := Nat.not_lt.mpr ht
    simp [vlqAssemble, h]
  | cons c cs ih =>
    intro n
    have hc96 : c < 96 := hc c (List.mem_cons_self c cs)
    have ih' := ih (fun x hx => hc x (List.mem_cons_of_mem c hx))
    simp [vlqAssemble, hc96, ih' (vlqFold n c)]

theorem vlqAssemble_all_cont (l : List Nat) (hc : ∀ c ∈ l, c < 96) :
    ∀ n : Nat, vlqAssemble l n = (List.foldl vlqFold n l, l.length) := by
  induction l with
  | nil => intro n; simp [vlqAssemble]
  | cons c cs ih =>
    intro n
    have hc96 : c < 96 := hc c (List.mem_cons_self c cs)
    have ih' := ih (fun x hx => hc x (List.mem_cons_of_mem c hx))
    simp [vlqAssemble, hc96, ih' (vlqFold n c)]

theorem vlqNext_at_end (string : List Nat) (offset : Nat)
    (h : string.length ≤ offset) : vlqNext string offset = (none, offset) := by
  simp [vlqNext, h]

theorem vlqNext_progress (string : List Nat) (offset : Nat)
    (h : offset < string.length) :
    ∃ v offset2, vlqNext string offset = (some v, offset2) ∧
      offset < offset2 ∧ offset2 ≤ string.length := by
  have hnle : ¬ string.length ≤ offset := Nat.not_le.mpr h
  have hdrop : string.drop offset ≠ [] := by
    intro he
    have hle := List.drop_eq_nil_iff.mp he
    omega
  refine ⟨vlqValue (vlqAssemble (string.drop offset) 0).1,
    offset + (vlqAssemble (string.drop offset) 0).2, ?_, ?_, ?_⟩
  · simp [vlqNext, hnle]
  · have h1 := vlqAssemble_consumed_pos (string.drop offset) 0 hdrop
    omega
  · have h2 := vlqAssemble_consumed_le (string.drop offset) 0
    have h3 : (string.drop offset).length = string.length - offset := by simp
    omega

theorem vlqReadAll_length_le : ∀ (fuel : Nat) (string : List Nat)
    (offset : Nat), (vlqReadAll fuel string offset).length ≤ fuel := by
  intro fuel
  induction fuel with
  | zero => intro s off; simp [vlqReadAll]
  | succ n ih =>
    intro s off
    rcases h : vlqNext s off with ⟨v, o2⟩
    cases v with
    | none => simp [vlqReadAll, h]
    | some x =>
      simp only [vlqReadAll, h, List.length_cons]
      have := ih s o2
      omega

theorem mkItem_id (crate_name : String) (crate_data : CrateData) (i : Nat)
    (type_char : Nat) (raw_name last_name last_path : String) (voff : Nat) :
    (mkItem crate_name crate_data i type_char raw_name last_name last_path
      voff).id = i := rfl

theorem mkItem_bit_index (crate_name : String) (crate_data : CrateData)
    (i : Nat) (type_char : Nat) (raw_name last_name last_path : String)
    (voff : Nat) :
    (mkItem crate_name crate_data i type_char raw_name last_name last_path
      voff).bit_index = i + 1 := rfl

theorem mkItem_name (crate_name : String) (crate_data : CrateData) (i : Nat)
    (type_char : Nat) (raw_name last_name last_path : String) (voff : Nat) :
    (mkItem crate_name crate_data i type_char raw_name last_name last_path
      voff).name = resolveName raw_name last_name := rfl

/-- Master lemma about the `decode_crate` loop: when `names` covers every
remaining position, the loop succeeds and produces one item per remaining
`types` byte, with ids `i, i+1, ...`, bit indices shifted by one, and names
given by the reuse-previous-value fold. -/
theorem decodeItems_spec (crate_name : String) (crate_data : CrateData) :
    ∀ (ts : List Nat) (i : Nat) (last_name last_path : String) (voff : Nat),
      i + ts.length ≤ crate_data.names.length →
      ∃ l, decodeItems crate_name crate_data i ts last_name last_path voff =
          some l ∧
        l.length = ts.length ∧
        l.map SearchItem.id = List.range' i ts.length ∧
        l.map SearchItem.bit_index = List.range' (i + 1) ts.length ∧
        l.map SearchItem.name =
          resolveNames ((crate_data.names.drop i).take ts.length) last_name := by
  intro ts
  induction ts with
  | nil =>
    intro i last_name last_path voff _
    exact ⟨[], rfl, rfl, by simp, by simp, by simp [resolveNames]⟩
  | cons type_char ts ih =>
    intro i last_name last_path voff hlen
    have hi : i < crate_data.names.length := by
      simp only [List.length_cons] at hlen; omega
    have hget : crate_data.names[i]? = some crate_data.names[i] :=
      List.getElem?_eq_getElem hi
    obtain ⟨l', hl', hlen', hid', hbit', hname'⟩ :=
      ih (i + 1) (resolveName crate_data.names[i] last_name)
        (resolvePath crate_data.paths i last_path)
        ((vlqNext crate_data.i voff).2)
        (by simp only [List.length_cons] at hlen; omega)
    refine ⟨mkItem crate_name crate_data i type_char crate_data.names[i]
        last_name last_path voff :: l', ?_, ?_, ?_, ?_, ?_⟩
    · simp only [decodeItems, hget, hl', Option.map_some']
    · simp [hlen']
    · simp only [List.length_cons, List.range'_succ, List.map_cons, hid',
        mkItem_id]
    · simp only [List.length_cons, List.range'_succ, List.map_cons, hbit',
        mkItem_bit_index]
    · rw [List.drop_eq_getElem_cons hi]
      simp only [List.length_cons, List.take_succ_cons, resolveNames,
        List.map_cons, hname', mkItem_name]

/-- Master lemma about the `decode_crate` loop, failure direction: when
`names` ends before the remaining positions do, the loop hits the
out-of-bounds index and aborts. -/
theorem decodeItems_names_short (crate_name : String) (crate_data : CrateData) :
    ∀ (ts : List Nat) (i : Nat) (last_name last_path : String) (voff : Nat),
      crate_data.names.length < i + ts.length →
      i ≤ crate_data.names.length →
      decodeItems crate_name crate_data i ts last_name last_path voff =
        none := by
  intro ts
  induction ts with
  | nil =>
    intro i _ _ _ h1 h2
    exfalso
    simp only [List.length_nil, Nat.add_zero] at h1
    omega
  | cons type_char ts ih =>
    intro i last_name last_path voff h1 h2
    rcases Nat.lt_or_ge i crate_data.names.length with hi | hi
    · have hget : crate_data.names[i]? = some crate_data.names[i] :=
        List.getElem?_eq_getElem hi
      simp only [decodeItems, hget]
      rw [ih (i + 1) _ _ _
        (by simp only [List.length_cons] at h1; omega) (by omega)]
      rfl
    · have hget : crate_data.names[i]? = none :=
        List.getElem?_eq_none (by omega)
      simp only [decodeItems, hget]

theorem decode_item_type_ge28 (type_id : Nat) (h : 28 ≤ type_id) :
    decode_item_type type_id = ItemType.Module := by
  obtain ⟨n, rfl⟩ : ∃ n, type_id = n + 28 := ⟨type_id - 28, by omega⟩
  rfl

/-! ## Claim theorems -/

/-- Claim C1: decoding the item kind is total. Every valid code 0..27 (the
discriminant of one of the 28 variants) decodes to its variant — so a
character at offset `code` from the base character `A` (byte 65) resolves
to the corresponding variant — every other code decodes to the fallback
kind `Module`, and so does every byte outside the range of the 28 valid
characters (65..92) after the wrapping `char - b'A'` step; no input is an
error. -/
theorem decode_item_type_total :
    (∀ k : ItemType, decode_item_type (itemTypeCode k) = k) ∧
    (∀ type_id : Nat, 28 ≤ type_id →
      decode_item_type type_id = ItemType.Module) ∧
    (∀ k : ItemType, decode_item_type (subByteA (65 + itemTypeCode k)) = k) ∧
    (∀ c : Nat, c < 256 → ¬ (65 ≤ c ∧ c ≤ 92) →
      decode_item_type (subByteA c) = ItemType.Module) := by
  refine ⟨?_, decode_item_type_ge28, ?_, ?_⟩
  · intro k; cases k <;> rfl
  · intro k; cases k <;> rfl
  · intro c hc hrange
    apply decode_item_type_ge28
    unfold subByteA
    omega

/-- Witness for `decode_item_type_total`: the kind `TraitAlias` (code 27,
character byte 92) round-trips, and the out-of-range code 100 and the
out-of-range character byte 100 fall back to `Module`. -/
theorem decode_item_type_total_witness :
    decode_item_type (itemTypeCode ItemType.TraitAlias) =
      ItemType.TraitAlias ∧
    decode_item_type 100 = ItemType.Module ∧
    decode_item_type (subByteA (65 + itemTypeCode ItemType.TraitAlias)) =
      ItemType.TraitAlias ∧
    decode_item_type (subByteA 100) = ItemType.Module :=
  ⟨decode_item_type_total.1 ItemType.TraitAlias,
   decode_item_type_total.2.1 100 (by decide),
   decode_item_type_total.2.2.1 ItemType.TraitAlias,
   decode_item_type_total.2.2.2 100 (by decide) (by decide)⟩

/-- Claim C2, counterexample: a crate whose `names` (length 2) is longer
than its `types` (length 1) is decoded by `decode_crate` without any
error, to a silently truncated one-item list — no length-mismatch check
exists. -/
theorem length_mismatch_counterexample :
    exampleNamesLonger.types.length = 1 ∧
    exampleNamesLonger.names.length = 2 ∧
    (decode_crate "test" exampleNamesLonger).map List.length = some 1 :=
  ⟨rfl, rfl, rfl⟩

/-- Claim C2, amended: `decode_crate` performs no length check. When
`names` is at least as long as `types` it succeeds with `types.length`
items, silently ignoring any extra names; when `names` is shorter it
aborts (the out-of-bounds index panic), rather than reporting a
recoverable per-crate structural error. -/
theorem length_mismatch_behavior :
    (∀ (crate_name : String) (crate_data : CrateData),
      crate_data.types.length ≤ crate_data.names.length →
      ∃ l, decode_crate crate_name crate_data = some l ∧
        l.length = crate_data.types.length) ∧
    (∀ (crate_name : String) (crate_data : CrateData),
      crate_data.names.length < crate_data.types.length →
      decode_crate crate_name crate_data = none) := by
  constructor
  · intro cn cd h
    obtain ⟨l, hl, hlen, _, _, _⟩ :=
      decodeItems_spec cn cd cd.types 0 "" "" 0 (by omega)
    exact ⟨l, hl, hlen⟩
  · intro cn cd h
    exact decodeItems_names_short cn cd cd.types 0 "" "" 0
      (by omega) (by omega)

/-- Witness for `length_mismatch_behavior` on the two mismatched example
payloads. -/
theorem length_mismatch_behavior_witness :
    (∃ l, decode_crate "test" exampleNamesLonger = some l ∧
      l.length = exampleNamesLonger.types.length) ∧
    decode_crate "test" exampleNamesShorter = none :=
  ⟨length_mismatch_behavior.1 "test" exampleNamesLonger (by decide),
   length_mismatch_behavior.2 "test" exampleNamesShorter (by decide)⟩

/-- Claim C8: for a crate whose `names` is at least as long as its
`types`, `decode_crate` succeeds with exactly `types.length` items in
position order, the item at position `i` having `id = i` and
`bit_index = i + 1` (`List.range'` being the ordered list of consecutive
positions, no sorting or deduplication happens). -/
theorem decode_crate_item_count :
    ∀ (crate_name : String) (crate_data : CrateData),
      crate_data.types.length ≤ crate_data.names.length →
      ∃ l, decode_crate crate_name crate_data = some l ∧
        l.length = crate_data.types.length ∧
        l.map SearchItem.id = List.range' 0 crate_data.types.length ∧
        l.map SearchItem.bit_index =
          List.range' 1 crate_data.types.length := by
  intro crate_name crate_data h
  obtain ⟨l, hl, hlen, hid, hbit, _⟩ :=
    decodeItems_spec crate_name crate_data crate_data.types 0 "" "" 0
      (by omega)
  exact ⟨l, hl, hlen, hid, by simpa using hbit⟩

/-- Witness for `decode_crate_item_count` on the four-item example crate. -/
theorem decode_crate_item_count_witness :
    exampleNamesData.types.length ≤ exampleNamesData.names.length ∧
    ∃ l, decode_crate "test_crate" exampleNamesData = some l ∧
      l.length = exampleNamesData.types.length ∧
      l.map SearchItem.id = List.range' 0 exampleNamesData.types.length ∧
      l.map SearchItem.bit_index =
        List.range' 1 exampleNamesData.types.length :=
  ⟨by decide, decode_crate_item_count "test_crate" exampleNamesData
    (by decide)⟩

/-- Claim C10: a `next` call returns `none` exactly when the cursor has
consumed the whole string; otherwise it returns a value and strictly
advances the cursor while keeping it within bounds, so repeated decoding
of any string terminates after at most `string.length` values. -/
theorem vlq_next_cursor :
    (∀ (string : List Nat) (offset : Nat), string.length ≤ offset →
      vlqNext string offset = (none, offset)) ∧
    (∀ (string : List Nat) (offset : Nat), offset < string.length →
      ∃ v offset2, vlqNext string offset = (some v, offset2) ∧
        offset < offset2 ∧ offset2 ≤ string.length) ∧
    (∀ string : List Nat, (vlqDecodeAll string).length ≤ string.length) :=
  ⟨vlqNext_at_end, vlqNext_progress,
   fun string => vlqReadAll_length_le string.length string 0⟩

/-- Witness for `vlq_next_cursor` on the `"aba"` byte string, at the
exhausted cursor 3 and the fresh cursor 0. -/
theorem vlq_next_cursor_witness :
    vlqNext [97, 98, 97] 3 = (none, 3) ∧
    (∃ v offset2, vlqNext [97, 98, 97] 0 = (some v, offset2) ∧
      0 < offset2 ∧ offset2 ≤ 3) :=
  ⟨vlq_next_cursor.1 [97, 98, 97] 3 (by decide),
   by simpa using vlq_next_cursor.2.1 [97, 98, 97] 0 (by decide)⟩

/-- Claim C3: the VLQ decoder implements the specified algorithm. One
decoded value folds `(acc << 4) | (code & 0xF)` over the consecutive
continuation bytes (code < 96) and then exactly one terminal byte
(code ≥ 96); bit 0 of the assembled accumulator is the sign and the rest,
shifted right by one, the magnitude. Decoding `"a"` yields 0, `"b"` yields
1, and `"aba"` yields `[0, 1, 0]` followed by end-of-stream. -/
theorem vlq_algorithm :
    (∀ conts t rest, (∀ c ∈ conts, c < 96) → 96 ≤ t →
      vlqNext (conts ++ t :: rest) 0 =
        (some (vlqValue (List.foldl vlqFold 0 (conts ++ [t]))),
          conts.length + 1)) ∧
    (∀ n : Nat, vlqValue n =
      if n % 2 = 1 then -((n / 2 : Nat) : Int) else ((n / 2 : Nat) : Int)) ∧
    vlqNext [97] 0 = (some 0, 1) ∧
    vlqNext [98] 0 = (some 1, 1) ∧
    vlqDecodeAll [97, 98, 97] = [0, 1, 0] ∧
    vlqNext [97, 98, 97] 3 = (none, 3) := by
  refine ⟨?_, ?_, by decide, by decide, by decide, by decide⟩
  · intro conts t rest hc ht
    have hne : ¬ (conts ++ t :: rest).length ≤ 0 := by simp
    simp [vlqNext, hne, vlqAssemble_split conts t rest hc ht 0]
  · intro n
    simp [vlqValue, Nat.and_one_is_mod, Nat.shiftRight_eq_div_pow]

/-- Witness for `vlq_algorithm`: one continuation byte 65 followed by the
terminal byte 97. -/
theorem vlq_algorithm_witness :
    vlqNext [65, 97] 0 =
      (some (vlqValue (List.foldl vlqFold 0 ([65] ++ [97]))), 2) := by
  have h := vlq_algorithm.1 [65] 97 [] (by decide) (by decide)
  simpa using h

/-- Claim C4, counterexample: `[65, 65]` consists only of continuation
bytes (65 < 96), yet the first `next` call does not signal end-of-stream:
it returns `-8`, the value assembled from the dangling continuation
nibbles. -/
theorem vlq_dangling_counterexample :
    (65 : Nat) < 96 ∧ vlqNext [65, 65] 0 = (some (-8), 2) := by decide

/-- Claim C4, amended: on an all-continuation string the call that
exhausts the string returns one final value, assembled from the dangling
continuation nibbles; every call made once the cursor has consumed the
whole string signals end-of-stream (and no call panics or loops). -/
theorem vlq_dangling_behavior :
    (∀ string : List Nat, string ≠ [] → (∀ c ∈ string, c < 96) →
      vlqNext string 0 =
        (some (vlqValue (List.foldl vlqFold 0 string)), string.length)) ∧
    (∀ (string : List Nat) (offset : Nat), string.length ≤ offset →
      vlqNext string offset = (none, offset)) := by
  constructor
  · intro s hne hc
    have hlen : ¬ s.length ≤ 0 := by
      cases s with
      | nil => exact absurd rfl hne
      | cons a l => simp
    simp [vlqNext, hlen, vlqAssemble_all_cont s hc 0]
  · exact vlqNext_at_end

/-- Witness for `vlq_dangling_behavior` on the all-continuation byte
string `[65, 65]`. -/
theorem vlq_dangling_behavior_witness :
    vlqNext [65, 65] 0 =
      (some (vlqValue (List.foldl vlqFold 0 [65, 65])), 2) ∧
    vlqNext [65, 65] 2 = (none, 2) := by
  refine ⟨?_, vlq_dangling_behavior.2 [65, 65] 2 (by decide)⟩
  have h := vlq_dangling_behavior.1 [65, 65] (by decide) (by decide)
  simpa using h

/-- Claim C5: parent resolution. A decoded stream value `v > 0` gives the
parent reference `v - 1`, a decoded 0 or an exhausted stream gives no
parent; the example stream decoding to `[0, 1, 2]` yields parent
references `[none, some 0, some 1]`. -/
theorem parent_resolution :
    (∀ v : Int, 0 < v → resolveParent (some v) = some (v - 1).toNat) ∧
    resolveParent (some 0) = none ∧
    resolveParent none = none ∧
    vlqDecodeAll exampleParentData.i = [0, 1, 2] ∧
    (decode_crate "mylib" exampleParentData).map
        (fun l => l.map SearchItem.parent_index) =
      some [none, some 0, some 1] := by
  refine ⟨?_, rfl, rfl, by decide, by decide⟩
  intro v hv
  simp [resolveParent, hv]

/-- Witness for `parent_resolution` at the decoded value 5. -/
theorem parent_resolution_witness :
    resolveParent (some 5) = some ((5 : Int) - 1).toNat :=
  parent_resolution.1 5 (by decide)

/-- Claim C6: exact-path resolution. Without a re-export entry the exact
path equals the resolved path; with one, it is the path stored in the path
overlay at the entry's path-overlay index, falling back to the resolved
path when that overlay index is absent; on the example crate, the
re-exported item 1 gets `exact_path` different from `path` and the others
get `exact_path = path`. -/
theorem exact_path_resolution :
    (∀ reexports paths i path, reexportsLookup reexports i = none →
      resolveExactPath reexports paths i path = path) ∧
    (∀ reexports paths i path path_index p,
      reexportsLookup reexports i = some path_index →
      pathsLookup paths path_index = some p →
      resolveExactPath reexports paths i path = p) ∧
    (∀ reexports paths i path path_index,
      reexportsLookup reexports i = some path_index →
      pathsLookup paths path_index = none →
      resolveExactPath reexports paths i path = path) ∧
    (decode_crate "mylib" exampleReexportData).map
        (fun l => l.map (fun it => (it.path, it.exact_path))) =
      some [("mylib", "mylib"), ("mylib::structs", "mylib"),
        ("mylib::structs", "mylib::structs")] := by
  refine ⟨?_, ?_, ?_, by decide⟩
  · intro re paths i path h
    simp [resolveExactPath, h]
  · intro re paths i path pidx p h1 h2
    simp [resolveExactPath, h1, h2]
  · intro re paths i path pidx h1 h2
    simp [resolveExactPath, h1, h2]

/-- Witness for `exact_path_resolution`: no entry, an entry whose overlay
index is present, and an entry whose overlay index is absent. -/
theorem exact_path_resolution_witness :
    resolveExactPath [] [] 0 "p" = "p" ∧
    resolveExactPath [{ item_index := 1, path_index := 0 }]
      [{ index := 0, path := "mylib" }] 1 "q" = "mylib" ∧
    resolveExactPath [{ item_index := 1, path_index := 7 }]
      [{ index := 0, path := "mylib" }] 1 "q" = "q" :=
  ⟨exact_path_resolution.1 [] [] 0 "p" rfl,
   exact_path_resolution.2.1 [{ item_index := 1, path_index := 0 }]
     [{ index := 0, path := "mylib" }] 1 "q" 0 "mylib" rfl rfl,
   exact_path_resolution.2.2.1 [{ item_index := 1, path_index := 7 }]
     [{ index := 0, path := "mylib" }] 1 "q" 7 rfl rfl⟩

/-- Claim C7: name resolution is reuse-previous-value compression. Every
successfully decoded crate's resolved names are the reuse fold of its raw
names started from the empty string; a non-empty raw name resolves to
itself and becomes the new reuse reference, an empty one to the previous
resolved name; raw names `["foo", "", "bar", ""]` resolve to
`["foo", "foo", "bar", "bar"]`, and an empty raw name at position 0
resolves to the empty string. -/
theorem name_reuse :
    (∀ (crate_name : String) (crate_data : CrateData) (l : List SearchItem),
      decode_crate crate_name crate_data = some l →
      l.map SearchItem.name =
        resolveNames (crate_data.names.take crate_data.types.length) "") ∧
    (∀ raw last_name : String, raw ≠ "" →
      resolveName raw last_name = raw) ∧
    (∀ last_name : String, resolveName "" last_name = last_name) ∧
    (decode_crate "test_crate" exampleNamesData).map
        (fun l => l.map SearchItem.name) =
      some ["foo", "foo", "bar", "bar"] ∧
    (decode_crate "c" exampleEmptyFirstData).map
        (fun l => l.map SearchItem.name) = some [""] := by
  refine ⟨?_, ?_, ?_, by decide, by decide⟩
  · intro cn cd l h
    simp only [decode_crate] at h
    rcases Nat.lt_or_ge cd.names.length cd.types.length with hlt | hge
    · exfalso
      rw [decodeItems_names_short cn cd cd.types 0 "" "" 0
        (by omega) (by omega)] at h
      exact Option.noConfusion h
    · obtain ⟨l', hl', _, _, _, hname⟩ :=
        decodeItems_spec cn cd cd.types 0 "" "" 0 (by omega)
      rw [hl'] at h
      obtain rfl : l' = l := Option.some.inj h
      simpa using hname
  · intro raw last_name h
    simp [resolveName, h]
  · intro last_name
    simp [resolveName]

/-- Witness for `name_reuse`: the one-item crate whose single raw name is
empty resolves it to the empty string, and a non-empty raw name resolves
to itself. -/
theorem name_reuse_witness :
    List.map SearchItem.name
        [({ crate_name := "c", item_type := ItemType.MutRef, name := "",
            normalized_name := "", path := "", exact_path := "", id := 0,
            param_types := [], impl_disambiguator := none, bit_index := 1,
            parent_index := none } : SearchItem)] =
      resolveNames (exampleEmptyFirstData.names.take
        exampleEmptyFirstData.types.length) "" ∧
    resolveName "foo" "x" = "foo" :=
  ⟨name_reuse.1 "c" exampleEmptyFirstData _ (by decide),
   name_reuse.2.1 "foo" "x" (by decide)⟩

/-- Claim C9, counterexample: on an input missing the opening delimiter
(and on one missing the closing delimiter) the extractor's failure is the
`.expect` panic — a process abort carrying the panic message, modeled by
`RustPanic` — not a recoverable error value distinct from a panic; it is
also not an empty success. -/
theorem extract_missing_delimiter_counterexample :
    extract_json_string "hello".data =
      Except.error (RustPanic.panic startPanicMsg) ∧
    extract_json_string ("JSON.parse(".data ++ [quoteChar] ++ "abc".data) =
      Except.error (RustPanic.panic endPanicMsg) ∧
    (Except.error (RustPanic.panic startPanicMsg) :
      Except RustPanic (List Char)) ≠ Except.ok [] :=
  ⟨rfl, rfl, fun h => Except.noConfusion h⟩

/-- Claim C9, amended: if the opening delimiter is absent the extractor
aborts with the opening-delimiter panic; if it is present but the closing
delimiter is absent, with the closing-delimiter panic; in neither case is
the file treated as an empty index. -/
theorem extract_missing_delimiter_panics :
    (∀ content, findSub content start_pattern = none →
      extract_json_string content =
        Except.error (RustPanic.panic startPanicMsg)) ∧
    (∀ content s0, findSub content start_pattern = some s0 →
      findSub (content.drop (s0 + start_pattern.length)) end_pattern =
        none →
      extract_json_string content =
        Except.error (RustPanic.panic endPanicMsg)) := by
  constructor
  · intro content h
    simp [extract_json_string, h]
  · intro content s0 h1 h2
    simp [extract_json_string, h1, h2]

/-- Witness for `extract_missing_delimiter_panics` on concrete inputs
missing each delimiter. -/
theorem extract_missing_delimiter_panics_witness :
    extract_json_string "hi".data =
      Except.error (RustPanic.panic startPanicMsg) ∧
    extract_json_string ("JSON.parse(".data ++ [quoteChar] ++ "x".data) =
      Except.error (RustPanic.panic endPanicMsg) :=
  ⟨extract_missing_delimiter_panics.1 "hi".data rfl,
   extract_missing_delimiter_panics.2
     ("JSON.parse(".data ++ [quoteChar] ++ "x".data) 0 rfl rfl⟩

end Rdoc
